import Mathlib

/-!
Verification development for the PriceHub backend (server.js).

The source is a small Express server: a TTL cache, a chain of upstream
price-source adapters with sequential fallback, a pure indicator engine
(SMA, RSI, MACD, trend slope, volatility) and a signal composer producing
signal / confidence / prediction-band outputs.

The embedding below translates the relevant functions of server.js into
Lean, using exact rational arithmetic (ℚ) for JavaScript number values.
JavaScript NaN / non-finite values are modelled explicitly: `JSNum` is a
parsed JS number (finite or not), and `Option ℚ` stands for a JS number
that may be NaN (`none` = NaN).  The transcendental functions Math.log and
Math.sqrt, which only feed the volatility estimate, are passed in as
abstract function parameters; no claim below depends on their values.
-/

/- ------------------------------- tiny cache ------------------------------- -/

/-- One entry of the in-memory cache: `cache[k] = { v, ts: Date.now(), ttl }`. -/
structure CacheEntry (α : Type) where
  v : α
  ts : Int
  ttl : Int

/-- `setCache = (k, v, ttlMs) => (cache[k] = { v, ts: Date.now(), ttl: ttlMs })`,
with the current time passed explicitly. -/
def setCache (α : Type) (cache : String → Option (CacheEntry α)) (k : String)
    (v : α) (now ttl : Int) : String → Option (CacheEntry α) :=
  fun k2 => if k2 = k then some ⟨v, now, ttl⟩ else cache k2

/-- `getCache`: returns null when the entry is missing or when
`Date.now() - e.ts > e.ttl`, else the stored value. -/
def getCache (α : Type) (cache : String → Option (CacheEntry α)) (k : String)
    (now : Int) : Option α :=
  match cache k with
  | none => none
  | some e => if e.ttl < now - e.ts then none else some e.v

/- ------------------------------ aggregators ------------------------------- -/

/-- Sequential try/catch fallback over a list of adapter outcomes
(`some v` = the adapter call returned `v`, `none` = it threw).  Returns the
first success together with the number of adapters that were invoked;
when every adapter fails the given error is thrown. -/
def firstSuccess (α : Type) (err : String) : List (Option α) → Except String α × Nat
  | [] => (Except.error err, 0)
  | some v :: _ => (Except.ok v, 1)
  | none :: rest => ((firstSuccess α err rest).1, (firstSuccess α err rest).2 + 1)

/-- `getUSDPriceForId`: try 1) Binance (probe + ticker), 2) CoinCap,
3) Paprika, in that order; throw `all_price_sources_failed` when all fail.
Each adapter's outcome is `some price` (success) or `none` (it threw, or
for Binance: no pair probed). -/
def getUSDPriceForId (binance coincap paprika : Option ℚ) : Except String ℚ :=
  (firstSuccess ℚ "all_price_sources_failed" [binance, coincap, paprika]).1

/-- Number of adapters `getUSDPriceForId` invokes before returning. -/
def spotAdaptersInvoked (binance coincap paprika : Option ℚ) : Nat :=
  (firstSuccess ℚ "all_price_sources_failed" [binance, coincap, paprika]).2

/-- `getUSDHistoryForId`: try 1) Binance klines (sliced to the window, and
treated as a failure when the slice is empty), 2) CoinCap history; throw
`all_history_sources_failed` when both fail. -/
def getUSDHistoryForId (binance coincap : Option (List (Int × ℚ))) :
    Except String (List (Int × ℚ)) :=
  (firstSuccess (List (Int × ℚ)) "all_history_sources_failed" [binance, coincap]).1

/-- Number of adapters `getUSDHistoryForId` invokes before returning. -/
def historyAdaptersInvoked (binance coincap : Option (List (Int × ℚ))) : Nat :=
  (firstSuccess (List (Int × ℚ)) "all_history_sources_failed" [binance, coincap]).2

/- ------------------------------ source adapters --------------------------- -/

/-- A JavaScript number as produced by `parseFloat` / `Number(...)`:
either finite (with exact rational value) or one of the non-finite values. -/
inductive JSNum where
  | nan : JSNum
  | inf : JSNum
  | neginf : JSNum
  | num : ℚ → JSNum
deriving DecidableEq

/-- `Number.isFinite` on a parsed JS number. -/
def JSNum.isFinite : JSNum → Bool
  | JSNum.num _ => true
  | _ => false

/-- The finite value of a JS number, when it has one. -/
def finitePart : JSNum → Option ℚ
  | JSNum.num q => some q
  | _ => none

/-- `binanceKlines` after the HTTP fetch: `ok` is `r.ok`, `body` is the
parsed JSON (`none` when it is not an array, a list of rows otherwise,
each row already projected to `(openTime, parseFloat(close))`).
The source maps rows to `[c[0], parseFloat(c[4])]` and applies NO price
filter and NO emptiness check. -/
def binanceKlines (ok : Bool) (body : Option (List (Int × JSNum))) :
    Except String (List (Int × JSNum)) :=
  if !ok then Except.error "binance_klines_bad"
  else
    match body with
    | none => Except.error "binance_klines_not_array"
    | some j => Except.ok (j.map (fun c => (c.1, c.2)))

/-- The point pipeline of `coincapHistoryUSD`:
`arr.filter(p => p.time >= cutoff).map(p => [p.time, parseFloat(p.priceUsd)])
.filter(([_, v]) => Number.isFinite(v))`, with each input point already
carrying its parsed price. -/
def coincapFiltered (arr : List (Int × JSNum)) (cutoff : Int) : List (Int × ℚ) :=
  ((arr.filter (fun p => decide (cutoff ≤ p.1))).map (fun p => (p.1, p.2))).filterMap
    (fun p => (finitePart p.2).map (fun q => (p.1, q)))

/-- `coincapHistoryUSD` after id resolution and the HTTP fetch: filter to the
window, parse prices, drop non-finite prices, and throw `coincap_hist_empty`
when nothing remains. -/
def coincapHistoryUSD (arr : List (Int × JSNum)) (cutoff : Int) :
    Except String (List (Int × ℚ)) :=
  let out := coincapFiltered arr cutoff
  if out = [] then Except.error "coincap_hist_empty" else Except.ok out

/- ----------------------------- math helpers ------------------------------- -/

/-- `mean = (a) => a.reduce((s, x) => s + x, 0) / a.length`. -/
def mean (a : List ℚ) : ℚ := a.sum / (a.length : ℚ)

/-- `SMA = (arr, n) => (arr.length >= n ? mean(arr.slice(-n)) : NaN)`;
`none` models the NaN result. -/
def SMA (arr : List ℚ) (n : Nat) : Option ℚ :=
  if n ≤ arr.length then some (mean (arr.drop (arr.length - n))) else none

/-- Consecutive differences of a list. -/
def deltas : List ℚ → List ℚ
  | [] => []
  | [_] => []
  | a :: b :: rest => (b - a) :: deltas (b :: rest)

/-- The trailing deltas `arr[i] - arr[i-1]`, `i = arr.length-period .. arr.length-1`,
i.e. the consecutive differences of the last `period+1` elements. -/
def rsiDeltas (arr : List ℚ) (period : Nat) : List ℚ :=
  deltas (arr.drop (arr.length - (period + 1)))

/-- One step of the RSI gain/loss accumulation:
`if (d >= 0) g += d; else l -= d;`. -/
def gainLossStep (gl : ℚ × ℚ) (d : ℚ) : ℚ × ℚ :=
  if 0 ≤ d then (gl.1 + d, gl.2) else (gl.1, gl.2 - d)

/-- The final `(g, l)` pair of the RSI loop. -/
def gainLoss (ds : List ℚ) : ℚ × ℚ := ds.foldl gainLossStep (0, 0)

/-- `RSI = (arr, period = 14) => ...`: NaN (`none`) when `arr.length <= period`,
else `100 - 100 / (1 + RS)` with `RS = g / Math.max(1e-9, l)`. -/
def RSI (arr : List ℚ) (period : Nat) : Option ℚ :=
  if arr.length ≤ period then none
  else
    let gl := gainLoss (rsiDeltas arr period)
    let RS := gl.1 / max (1 / 1000000000) gl.2
    some (100 - 100 / (1 + RS))

/-- Loop state of the MACD EMA pass: current fast/slow EMAs, the collected
EMA series, and the loop index. -/
structure MacdSt where
  emaF : ℚ
  emaS : ℚ
  fastS : List ℚ
  slowS : List ℚ
  i : Nat

/-- One iteration of the MACD loop body, for price `p` at index `st.i`. -/
def macdStep (kF kS : ℚ) (fast slow : Nat) (st : MacdSt) (p : ℚ) : MacdSt :=
  let st1 :=
    if fast - 1 ≤ st.i then
      let e := p * kF + st.emaF * (1 - kF)
      { st with emaF := e, fastS := st.fastS ++ [e] }
    else st
  let st2 :=
    if slow - 1 ≤ st1.i then
      let e := p * kS + st1.emaS * (1 - kS)
      { st1 with emaS := e, slowS := st1.slowS ++ [e] }
    else st1
  { st2 with i := st2.i + 1 }

/-- `MACD = (arr, fast = 12, slow = 26, signal = 9) => ...` returning
`(macd, signal, hist)`; `none` components model the NaN results when
`arr.length < slow + signal`. -/
def MACD (arr : List ℚ) (fast slow sig : Nat) : Option ℚ × Option ℚ × Option ℚ :=
  if arr.length < slow + sig then (none, none, none)
  else
    let kF : ℚ := 2 / ((fast : ℚ) + 1)
    let kS : ℚ := 2 / ((slow : ℚ) + 1)
    let st := arr.foldl (macdStep kF kS fast slow)
      ⟨mean (arr.take fast), mean (arr.take slow), [], [], 0⟩
    let start := st.fastS.length - st.slowS.length
    let macdSeries := (st.fastS.drop start).zipWith (fun x y => x - y) st.slowS
    let kSig : ℚ := 2 / ((sig : ℚ) + 1)
    let sigv := (macdSeries.drop sig).foldl (fun s x => x * kSig + s * (1 - kSig))
      (mean (macdSeries.take sig))
    (macdSeries.getLast?, some sigv, macdSeries.getLast?.map (fun m => m - sigv))

/-- `trendSlope = (arr, n = 30) => ...`: OLS slope of the last `n` points over
the normalized index axis `0..1`, divided by `Math.max(1e-9, ym)`; `0` when
fewer than two points (or a degenerate denominator). -/
def trendSlope (arr : List ℚ) (n : Nat) : ℚ :=
  let a := arr.drop (arr.length - n)
  let m := a.length
  if m < 2 then 0
  else
    let xs := (List.range m).map (fun (i : ℕ) => (i : ℚ) / ((m : ℚ) - 1))
    let xm := mean xs
    let ym := mean a
    let num := ∑ i in Finset.range m, (xs.getD i 0 - xm) * (a.getD i 0 - ym)
    let den := ∑ i in Finset.range m, (xs.getD i 0 - xm) ^ 2
    if den = 0 then 0 else (num / den) / max (1 / 1000000000) ym

/- ----------------------------- signal composer ---------------------------- -/

/-- JavaScript `a || d` for a possibly-NaN number `a`: NaN and `0` are falsy,
every other number is truthy. -/
def jsOrFalsy (v : Option ℚ) (d : ℚ) : ℚ :=
  match v with
  | none => d
  | some x => if x = 0 then d else x

/-- JavaScript `a > b` where either side may be NaN (`none`): any comparison
with NaN is false. -/
def jsGTo (a b : Option ℚ) : Bool :=
  match a, b with
  | some x, some y => decide (y < x)
  | _, _ => false

/-- JavaScript `a < b` where either side may be NaN (`none`). -/
def jsLTo (a b : Option ℚ) : Bool :=
  match a, b with
  | some x, some y => decide (x < y)
  | _, _ => false

/-- The score accumulation of the analyzer:
`score += sma20 > sma50 ? 1 : -1; score += macd > signal ? 1 : -1;
if (rsi14 > 60) score++; else if (rsi14 < 40) score--; score += slope * 50;`. -/
def scoreOf (sma20 sma50 macd macdSig rsi14 : Option ℚ) (slope : ℚ) : ℚ :=
  (if jsGTo sma20 sma50 then 1 else -1) + (if jsGTo macd macdSig then 1 else -1) +
    (if jsGTo rsi14 (some 60) then 1 else if jsLTo rsi14 (some 40) then -1 else 0) +
    slope * 50

/-- `norm = Math.max(-3, Math.min(3, score)) / 3`. -/
def normOf (score : ℚ) : ℚ := max (-3) (min 3 score) / 3

/-- `sigText = norm > 0.25 ? "bullish" : norm < -0.25 ? "bearish" : "neutral"`. -/
def sigTextOf (norm : ℚ) : String :=
  if 1 / 4 < norm then "bullish" else if norm < -(1 / 4) then "bearish" else "neutral"

/-- `confidence = Math.max(0.1, Math.min(0.95, 0.5 - (vol7 || 0) * 2 + Math.abs(norm) * 0.5))`. -/
def confidenceOf (vol7 : Option ℚ) (norm : ℚ) : ℚ :=
  max (1 / 10) (min (19 / 20) (1 / 2 - jsOrFalsy vol7 0 * 2 + |norm| * (1 / 2)))

/-- `expMove = Math.max(0.004, Math.min(0.05, (vol7 || 0.01) * 1.2))`. -/
def expMoveOf (vol7 : Option ℚ) : ℚ :=
  max (1 / 250) (min (1 / 20) (jsOrFalsy vol7 (1 / 100) * (6 / 5)))

/-- `drift = norm * 0.012`. -/
def driftOf (norm : ℚ) : ℚ := norm * (3 / 250)

/-- `[lowPct, highPct] = [drift - expMove, drift + expMove]`. -/
def bandPct (norm : ℚ) (vol7 : Option ℚ) : ℚ × ℚ :=
  (driftOf norm - expMoveOf vol7, driftOf norm + expMoveOf vol7)

/-- `band_abs = [last * (1 + lowPct), last * (1 + highPct)]`. -/
def bandAbs (last norm : ℚ) (vol7 : Option ℚ) : ℚ × ℚ :=
  (last * (1 + (bandPct norm vol7).1), last * (1 + (bandPct norm vol7).2))

/-- Spec-side clamp, written from the spec's words: `clamp(x, lo, hi)`
holds `x` into `[lo, hi]`. -/
def clampSpec (x lo hi : ℚ) : ℚ := max lo (min hi x)

/- ----------------------------- raw analysis ------------------------------- -/

/-- The log-return series `rets[i-1] = Math.log(P[i] / P[i-1])`; the abstract
`log'` returns `none` where Math.log would return NaN. -/
def retsOf (log' : ℚ → Option ℚ) (P : List ℚ) : List (Option ℚ) :=
  (P.zip (P.drop 1)).map (fun pr => log' (pr.2 / pr.1))

/-- `stdev = (a) => sqrt(mean(a.map(x => (x - m) ** 2)))` over a possibly
NaN-containing series: NaN (`none`) when the series is empty (mean of `[]`
is NaN) or contains a NaN; otherwise the abstract square root of the exact
rational variance. -/
def stdevJS (sqrt' : ℚ → ℚ) (a : List (Option ℚ)) : Option ℚ :=
  if a.isEmpty || a.any (fun o => o.isNone) then none
  else
    let v := a.filterMap id
    let m := mean v
    some (sqrt' (mean (v.map (fun x => (x - m) ^ 2))))

/-- The Analysis Result record assembled by the analyzer (numeric core;
the optional AI narrative is out of scope). -/
structure AnalysisResult where
  ok : Bool
  latest_price : ℚ
  sma20 : Option ℚ
  sma50 : Option ℚ
  rsi14 : Option ℚ
  macd : Option ℚ
  macdSignal : Option ℚ
  macdHist : Option ℚ
  trendSlope : ℚ
  vol7 : Option ℚ
  signal : String
  confidence : ℚ
  horizon_hours : Nat
  band_abs : ℚ × ℚ
  band_pct : ℚ × ℚ
  summary : String
  disclaimer : String

/-- The indicator/composer pipeline of `POST /api/krypto/analyze/raw` applied
to the filtered finite price list `P` (callers guarantee `P ≠ []`). -/
def analyzeRawCore (log' : ℚ → Option ℚ) (sqrt' : ℚ → ℚ) (P : List ℚ) : AnalysisResult :=
  let last := P.getLastD 0
  let sma20 := SMA P 20
  let sma50 := SMA P 50
  let rsi14 := RSI P 14
  let mac := MACD P 12 26 9
  let slope := trendSlope P 30
  let rets := retsOf log' P
  let vol7 := stdevJS sqrt' (rets.drop (rets.length - 24 * 7))
  let score := scoreOf sma20 sma50 mac.1 mac.2.1 rsi14 slope
  let norm := normOf score
  let sigText := sigTextOf norm
  let conf := confidenceOf vol7 norm
  { ok := true
    latest_price := last
    sma20 := sma20
    sma50 := sma50
    rsi14 := rsi14
    macd := mac.1
    macdSignal := mac.2.1
    macdHist := mac.2.2
    trendSlope := slope
    vol7 := vol7
    signal := sigText
    confidence := conf
    horizon_hours := 24
    band_abs := bandAbs last norm vol7
    band_pct := bandPct norm vol7
    summary := "Signal: " ++ sigText ++ ", Confidence " ++ toString (round (conf * 100)) ++ "%"
    disclaimer := "Educational use only. This is NOT financial advice." }

/-- An HTTP response of the raw-analysis route: an error status with message,
or a 200 with the Analysis Result. -/
inductive RawResponse where
  | err : Nat → String → RawResponse
  | ok : AnalysisResult → RawResponse

/-- The HTTP status of a raw-analysis response. -/
def respStatus : RawResponse → Nat
  | RawResponse.err s _ => s
  | RawResponse.ok _ => 200

/-- The absolute prediction band of a 200 response, when there is one. -/
def respBandAbs : RawResponse → Option (ℚ × ℚ)
  | RawResponse.err _ _ => none
  | RawResponse.ok r => some r.band_abs

/-- `POST /api/krypto/analyze/raw`: `prices` is the request's prices field
after `row => Array.isArray(row) ? row[1] : row` and `Number(...)`
(`none` = missing or not an array).  The `< 40` length check runs on the
raw array, BEFORE non-finite entries are dropped. -/
def analyzeRawHandler (log' : ℚ → Option ℚ) (sqrt' : ℚ → ℚ)
    (prices : Option (List JSNum)) : RawResponse :=
  match prices with
  | none => RawResponse.err 400 "prices array required (>=40 points)"
  | some ps =>
    if ps.length < 40 then RawResponse.err 400 "prices array required (>=40 points)"
    else
      let P := ps.filterMap finitePart
      if P.isEmpty then RawResponse.err 400 "invalid prices"
      else RawResponse.ok (analyzeRawCore log' sqrt' P)

/-- A placeholder environment for Math.log in concrete evaluations. -/
def logNone : ℚ → Option ℚ := fun _ => none

/-- A placeholder environment for Math.sqrt in concrete evaluations. -/
def sqrtId : ℚ → ℚ := fun q => q

/-- A concrete 40-point strictly increasing finite price array. -/
def ps40 : List JSNum := (List.range 40).map (fun i => JSNum.num (i : ℚ))

/-- A concrete 40-point array with a single finite entry. -/
def psOneFinite : List JSNum := List.replicate 39 JSNum.nan ++ [JSNum.num 5]

/-- A concrete strictly increasing 15-point price series. -/
def rsiSeq : List ℚ := [0, 1, 2, 3, 4, 5, 6, 7, 8, 9, 10, 11, 12, 13, 14]

/- ------------------------------- theorems --------------------------------- -/

/-- Claim C1: the spot-price resolver tries the adapters in the fixed order
Binance, CoinCap, Paprika and returns the first success, invoking exactly the
first `k+1` adapters when the first `k` fail and the `k+1`-th succeeds; when
every adapter fails it throws `all_price_sources_failed`.  Likewise the
history resolver walks Binance then CoinCap and throws
`all_history_sources_failed` on exhaustion. -/
theorem c1_resolver_fallback (b c p : Option ℚ) (bh ch : Option (List (Int × ℚ)))
    (v : ℚ) (s : List (Int × ℚ)) :
    (b = some v → getUSDPriceForId b c p = Except.ok v ∧ spotAdaptersInvoked b c p = 1) ∧
    (b = none → c = some v → getUSDPriceForId b c p = Except.ok v ∧
      spotAdaptersInvoked b c p = 2) ∧
    (b = none → c = none → p = some v → getUSDPriceForId b c p = Except.ok v ∧
      spotAdaptersInvoked b c p = 3) ∧
    (b = none → c = none → p = none →
      getUSDPriceForId b c p = Except.error "all_price_sources_failed") ∧
    (bh = some s → getUSDHistoryForId bh ch = Except.ok s ∧
      historyAdaptersInvoked bh ch = 1) ∧
    (bh = none → ch = some s → getUSDHistoryForId bh ch = Except.ok s ∧
      historyAdaptersInvoked bh ch = 2) ∧
    (bh = none → ch = none →
      getUSDHistoryForId bh ch = Except.error "all_history_sources_failed") := by
  refine ⟨?_, ?_, ?_, ?_, ?_, ?_, ?_⟩ <;> intros <;> subst_vars <;>
    simp [getUSDPriceForId, spotAdaptersInvoked, getUSDHistoryForId,
      historyAdaptersInvoked, firstSuccess]

/-- Claim C1, witness: with Binance failing and CoinCap succeeding at price 7,
the resolver returns 7 having invoked exactly two adapters (Paprika untouched). -/
theorem c1_resolver_fallback_witness :
    getUSDPriceForId none (some 7) (some 9) = Except.ok 7 ∧
      spotAdaptersInvoked none (some 7) (some 9) = 2 :=
  (c1_resolver_fallback none (some 7) (some 9) none none 7 []).2.1 rfl rfl

/-- Claim C2, counterexample: set at time 0 with ttl 5, then get at time 5.
The code returns the value (its check is `now - ts > ttl`), yet
`now - created-at < ttl` is false, so "valid iff now − created-at < ttl"
fails at the boundary. -/
theorem c2_cache_counterexample :
    getCache Int (setCache Int (fun _ => none) "k" 42 0 5) "k" 5 = some 42 ∧
      ¬((5 : Int) - 0 < 5) := by
  exact ⟨rfl, by decide⟩

/-- Claim C2 (amended): a value set with ttl `T` at `t0` is returned for any
get with `t - t0 < T` and treated as absent for any get with `t - t0 > T`;
the entry is valid if and only if `now − created-at ≤ ttl` (the boundary
`now − created-at = ttl` is still valid, since the code expires strictly
greater only). -/
theorem c2_cache_ttl (α : Type) (c : String → Option (CacheEntry α)) (k : String)
    (v : α) (t0 T t : Int) :
    (t - t0 < T → getCache α (setCache α c k v t0 T) k t = some v) ∧
    (T < t - t0 → getCache α (setCache α c k v t0 T) k t = none) ∧
    (getCache α (setCache α c k v t0 T) k t = some v ↔ t - t0 ≤ T) := by
  have hk : getCache α (setCache α c k v t0 T) k t
      = if T < t - t0 then none else some v := by
    simp [getCache, setCache]
  rw [hk]
  by_cases h : T < t - t0
  · rw [if_pos h]
    refine ⟨fun h2 => absurd h (by omega), fun _ => rfl, ?_⟩
    simp only [false_iff, reduceCtorEq]
    omega
  · rw [if_neg h]
    refine ⟨fun _ => rfl, fun h2 => absurd h2 h, ?_⟩
    simp only [Option.some.injEq, true_iff]
    omega

/-- Claim C2, witness: a get three time units after a set with ttl 5
returns the stored value. -/
theorem c2_cache_ttl_witness :
    getCache Int (setCache Int (fun _ => none) "k" 7 0 5) "k" 3 = some 7 :=
  (c2_cache_ttl Int (fun _ => none) "k" 7 0 5 3).1 (by decide)

/-- Claim C3, counterexample: the CoinCap history adapter keeps a point whose
price is 0 (non-positive), and the Binance klines adapter neither filters a
non-finite close nor fails on an empty series. -/
theorem c3_history_filter_counterexample :
    coincapHistoryUSD [((0 : Int), JSNum.num 0)] 0 = Except.ok [((0 : Int), (0 : ℚ))] ∧
      ¬(0 < (0 : ℚ)) ∧
      binanceKlines true (some [((0 : Int), JSNum.nan)]) =
        Except.ok [((0 : Int), JSNum.nan)] ∧
      binanceKlines true (some []) = Except.ok [] :=
  ⟨rfl, by norm_num, rfl, rfl⟩

/-- Claim C3 (amended): the CoinCap history adapter filters out points with
non-finite prices only (non-positive finite prices are retained: every output
point stems from an in-window input point with a finite parsed price) and
fails with `coincap_hist_empty` exactly when the filtered series is empty;
the Binance klines adapter applies no price filter and no emptiness check at
all — it returns the mapped rows as they are (the resolver handles emptiness
after time-slicing). -/
theorem c3_history_filter (arr : List (Int × JSNum)) (cutoff : Int)
    (j : List (Int × JSNum)) :
    (coincapHistoryUSD arr cutoff = Except.error "coincap_hist_empty" ↔
      coincapFiltered arr cutoff = []) ∧
    (∀ out, coincapHistoryUSD arr cutoff = Except.ok out →
      out ≠ [] ∧ ∀ q ∈ out, (q.1, JSNum.num q.2) ∈ arr ∧ cutoff ≤ q.1) ∧
    binanceKlines true (some j) = Except.ok (j.map (fun c => (c.1, c.2))) := by
  refine ⟨?_, ?_, rfl⟩
  · unfold coincapHistoryUSD
    by_cases he : coincapFiltered arr cutoff = [] <;> simp [he]
  · intro out hout
    unfold coincapHistoryUSD at hout
    by_cases he : coincapFiltered arr cutoff = []
    · simp [he] at hout
    · simp only [he, if_false, ite_false] at hout
      have hout2 : out = coincapFiltered arr cutoff := by
        cases hout
        rfl
      subst hout2
      refine ⟨he, ?_⟩
      intro q hq
      unfold coincapFiltered at hq
      rw [show (arr.filter (fun p => decide (cutoff ≤ p.1))).map (fun p => (p.1, p.2))
          = arr.filter (fun p => decide (cutoff ≤ p.1)) by simp] at hq
      rcases List.mem_filterMap.mp hq with ⟨a, ha, hfa⟩
      rcases a with ⟨t, pv⟩
      rcases List.mem_filter.mp ha with ⟨hmem, hcut⟩
      cases pv <;> simp [finitePart] at hfa
      rw [← hfa]
      exact ⟨by simpa using hmem, by simpa using hcut⟩

/-- Claim C3, witness: a single in-window finite point survives and is traced
back to the input. -/
theorem c3_history_filter_witness :
    [((0 : Int), (2 : ℚ))] ≠ [] ∧
      ∀ q ∈ [((0 : Int), (2 : ℚ))],
        (q.1, JSNum.num q.2) ∈ [((0 : Int), JSNum.num 2)] ∧ (0 : Int) ≤ q.1 :=
  (c3_history_filter [((0 : Int), JSNum.num 2)] 0 []).2.1 [((0 : Int), (2 : ℚ))] rfl

/-- Claim C5: for every finite volatility and normalized score, the composed
confidence lies in `[0.1, 0.95]` and equals the clamp of
`0.5 − 2·volatility + 0.5·|normScore|` to that interval (zero volatility
included: `0 || 0` is still `0`). -/
theorem c5_confidence_bounds (x norm : ℚ) :
    1 / 10 ≤ confidenceOf (some x) norm ∧ confidenceOf (some x) norm ≤ 19 / 20 ∧
      confidenceOf (some x) norm
        = clampSpec (1 / 2 - 2 * x + (1 / 2) * |norm|) (1 / 10) (19 / 20) := by
  have he : jsOrFalsy (some x) 0 = x := by
    unfold jsOrFalsy
    by_cases hx : x = 0 <;> simp [hx]
  unfold confidenceOf clampSpec
  rw [he]
  refine ⟨le_max_left _ _, max_le (by norm_num) (min_le_left _ _), ?_⟩
  rw [show (1 : ℚ) / 2 - x * 2 + |norm| * (1 / 2) = 1 / 2 - 2 * x + (1 / 2) * |norm|
    by ring]

/-- Claim C6, counterexample: the raw-analysis route accepts 40 finite points
that are all 0; the resulting Analysis Result has `band_abs = [0, 0]`, which
is not strictly ordered. -/
theorem c6_band_counterexample :
    respBandAbs (analyzeRawHandler logNone sqrtId (some (List.replicate 40 (JSNum.num 0))))
        = some (0, 0) ∧ ¬((0 : ℚ) < 0) := by
  refine ⟨?_, by norm_num⟩
  have hh : analyzeRawHandler logNone sqrtId (some (List.replicate 40 (JSNum.num 0)))
      = RawResponse.ok (analyzeRawCore logNone sqrtId
          ((List.replicate 40 (JSNum.num 0)).filterMap finitePart)) := by
    unfold analyzeRawHandler
    dsimp only
    rw [if_neg (by decide), if_neg (by decide)]
  rw [hh]
  unfold respBandAbs
  unfold analyzeRawCore
  have hlast : ((List.replicate 40 (JSNum.num (0 : ℚ))).filterMap finitePart).getLastD 0
      = 0 := by decide
  rw [hlast]
  unfold bandAbs
  simp

/-- Claim C6 (amended): for every analysis result whose latest price is
positive, the absolute band is strictly ordered, `band_abs[0] < band_abs[1]`
(with a non-positive latest price — reachable through the raw endpoint — the
band degenerates or reverses); for every result the band midpoint equals
`latest_price × (1 + drift)` with `drift = normScore × 0.012`. -/
theorem c6_band_ordered (last norm : ℚ) (vol7 : Option ℚ) :
    (0 < last → (bandAbs last norm vol7).1 < (bandAbs last norm vol7).2) ∧
      ((bandAbs last norm vol7).1 + (bandAbs last norm vol7).2) / 2
        = last * (1 + driftOf norm) := by
  have he : 0 < expMoveOf vol7 := lt_of_lt_of_le (by norm_num) (le_max_left _ _)
  unfold bandAbs bandPct
  constructor
  · intro hl
    have h1 : driftOf norm - expMoveOf vol7 < driftOf norm + expMoveOf vol7 := by
      linarith
    have h2 := mul_lt_mul_of_pos_left (add_lt_add_left h1 1) hl
    simpa using h2
  · ring

/-- Claim C6, witness: at latest price 1 the band is strictly ordered. -/
theorem c6_band_ordered_witness :
    (bandAbs 1 0 (some 0)).1 < (bandAbs 1 0 (some 0)).2 :=
  (c6_band_ordered 1 0 (some 0)).1 (by norm_num)

/-- Claim C7, counterexample: a defined zero volatility is falsy in
JavaScript, so `(vol7 || 0.01)` replaces it with the 0.01 fallback and the
expected move is `0.012`, not the floor `0.004`. -/
theorem c7_expmove_counterexample :
    expMoveOf (some 0) = 3 / 250 ∧ (3 / 250 : ℚ) ≠ 1 / 250 := by
  refine ⟨?_, by norm_num⟩
  have h1 : jsOrFalsy (some 0) (1 / 100) = 1 / 100 := by simp [jsOrFalsy]
  unfold expMoveOf
  rw [h1, show (1 : ℚ) / 100 * (6 / 5) = 3 / 250 by norm_num,
    min_eq_right (by norm_num : (3 : ℚ) / 250 ≤ 1 / 20),
    max_eq_right (by norm_num : (1 : ℚ) / 250 ≤ 3 / 250)]

/-- Claim C7 (amended): the expected move equals the clamp of
`1.2 × volatility` to `[0.004, 0.05]`, with the fallback `volatility = 0.01`
used when volatility is undefined (NaN) OR zero (both are falsy); a defined
zero volatility therefore yields `0.012`, not the floor `0.004`. -/
theorem c7_expmove (x : ℚ) :
    (x ≠ 0 → expMoveOf (some x) = clampSpec (x * (6 / 5)) (1 / 250) (1 / 20)) ∧
      expMoveOf none = clampSpec ((1 / 100) * (6 / 5)) (1 / 250) (1 / 20) ∧
      expMoveOf (some 0) = 3 / 250 := by
  refine ⟨?_, rfl, c7_expmove_counterexample.1⟩
  intro hx
  unfold expMoveOf clampSpec
  simp only [jsOrFalsy, if_neg hx]

/-- Claim C7, witness: at defined volatility 1 the clamp form applies. -/
theorem c7_expmove_witness :
    expMoveOf (some 1) = clampSpec (1 * (6 / 5)) (1 / 250) (1 / 20) :=
  (c7_expmove 1).1 (by norm_num)

/-- When every entry of the list is finite, the finite-filter keeps the whole
list. -/
theorem filterMap_finite_length (ps : List JSNum) (h : ∀ x ∈ ps, x.isFinite = true) :
    (ps.filterMap finitePart).length = ps.length := by
  induction ps with
  | nil => rfl
  | cons a t ih =>
    have ha := h a (by simp)
    have ht := ih (fun x hx => h x (by simp [hx]))
    cases a
    · simp [JSNum.isFinite] at ha
    · simp [JSNum.isFinite] at ha
    · simp [JSNum.isFinite] at ha
    · simp [List.filterMap_cons, finitePart, ht]

/-- The raw handler returns a 200 result exactly when the raw length check and
the finite-filter emptiness check both pass. -/
theorem handler_ok (log' : ℚ → Option ℚ) (sqrt' : ℚ → ℚ) (ps : List JSNum)
    (h40 : ¬ps.length < 40) (hne : ps.filterMap finitePart ≠ []) :
    analyzeRawHandler log' sqrt' (some ps)
      = RawResponse.ok (analyzeRawCore log' sqrt' (ps.filterMap finitePart)) := by
  unfold analyzeRawHandler
  dsimp only
  rw [if_neg h40, if_neg (by simpa using hne)]

/-- The signal text of any analysis result is one of the three direction
labels. -/
theorem analyzeRawCore_signal (log' : ℚ → Option ℚ) (sqrt' : ℚ → ℚ) (P : List ℚ) :
    (analyzeRawCore log' sqrt' P).signal = "bullish" ∨
      (analyzeRawCore log' sqrt' P).signal = "bearish" ∨
      (analyzeRawCore log' sqrt' P).signal = "neutral" := by
  have h : (analyzeRawCore log' sqrt' P).signal
      = sigTextOf (normOf (scoreOf (SMA P 20) (SMA P 50) (MACD P 12 26 9).1
          (MACD P 12 26 9).2.1 (RSI P 14) (trendSlope P 30))) := rfl
  rw [h]
  unfold sigTextOf
  split_ifs <;> simp

/-- Claim C8: `POST /api/krypto/analyze/raw` answers 400 when the supplied
prices array has 39 points or fewer, 400 when no finite prices remain after
filtering, and with exactly 40 finite points it answers 200 with the fully
populated Analysis Result (all indicator fields are part of the record; the
signal is one of the three labels, and the fixed disclaimer is attached). -/
theorem c8_raw_endpoint (log' : ℚ → Option ℚ) (sqrt' : ℚ → ℚ) (ps : List JSNum) :
    (ps.length ≤ 39 →
      analyzeRawHandler log' sqrt' (some ps)
        = RawResponse.err 400 "prices array required (>=40 points)") ∧
    (40 ≤ ps.length → ps.filterMap finitePart = [] →
      analyzeRawHandler log' sqrt' (some ps) = RawResponse.err 400 "invalid prices") ∧
    (ps.length = 40 → (∀ x ∈ ps, x.isFinite = true) →
      analyzeRawHandler log' sqrt' (some ps)
          = RawResponse.ok (analyzeRawCore log' sqrt' (ps.filterMap finitePart)) ∧
        (analyzeRawCore log' sqrt' (ps.filterMap finitePart)).ok = true ∧
        (analyzeRawCore log' sqrt' (ps.filterMap finitePart)).disclaimer
          = "Educational use only. This is NOT financial advice." ∧
        ((analyzeRawCore log' sqrt' (ps.filterMap finitePart)).signal = "bullish" ∨
          (analyzeRawCore log' sqrt' (ps.filterMap finitePart)).signal = "bearish" ∨
          (analyzeRawCore log' sqrt' (ps.filterMap finitePart)).signal = "neutral")) := by
  refine ⟨?_, ?_, ?_⟩
  · intro h
    unfold analyzeRawHandler
    dsimp only
    rw [if_pos (by omega)]
  · intro h40 hempty
    unfold analyzeRawHandler
    dsimp only
    rw [if_neg (by omega), if_pos (by simp [hempty])]
  · intro hlen hfin
    have hne : ps.filterMap finitePart ≠ [] := by
      have hl := filterMap_finite_length ps hfin
      intro hc
      rw [hc] at hl
      rw [hlen] at hl
      simp at hl
    exact ⟨handler_ok log' sqrt' ps (by omega) hne, rfl, rfl,
      analyzeRawCore_signal log' sqrt' (ps.filterMap finitePart)⟩

/-- Claim C8, witness: a concrete 40-point finite array is accepted and fully
analyzed. -/
theorem c8_raw_endpoint_witness :
    analyzeRawHandler logNone sqrtId (some ps40)
        = RawResponse.ok (analyzeRawCore logNone sqrtId (ps40.filterMap finitePart)) ∧
      (analyzeRawCore logNone sqrtId (ps40.filterMap finitePart)).ok = true ∧
      (analyzeRawCore logNone sqrtId (ps40.filterMap finitePart)).disclaimer
        = "Educational use only. This is NOT financial advice." ∧
      ((analyzeRawCore logNone sqrtId (ps40.filterMap finitePart)).signal = "bullish" ∨
        (analyzeRawCore logNone sqrtId (ps40.filterMap finitePart)).signal = "bearish" ∨
        (analyzeRawCore logNone sqrtId (ps40.filterMap finitePart)).signal = "neutral") :=
  (c8_raw_endpoint logNone sqrtId ps40).2.2 (by decide) (by decide)

/-- Claim C10: the 40-point minimum is checked on the raw prices array before
non-finite entries are dropped — a 40-element array with at least one finite
entry passes validation and the 200 analysis is computed from exactly the
finite prices that remain (its latest price is the last surviving finite
price). -/
theorem c10_raw_validation (log' : ℚ → Option ℚ) (sqrt' : ℚ → ℚ) (ps : List JSNum)
    (hlen : ps.length = 40) (hne : ps.filterMap finitePart ≠ []) :
    analyzeRawHandler log' sqrt' (some ps)
        = RawResponse.ok (analyzeRawCore log' sqrt' (ps.filterMap finitePart)) ∧
      (analyzeRawCore log' sqrt' (ps.filterMap finitePart)).latest_price
        = (ps.filterMap finitePart).getLastD 0 :=
  ⟨handler_ok log' sqrt' ps (by omega) hne, rfl⟩

/-- Claim C10, witness: 39 NaN entries plus one finite entry (40 raw points)
pass validation; the analysis is computed from the single finite price. -/
theorem c10_raw_validation_witness :
    analyzeRawHandler logNone sqrtId (some psOneFinite)
        = RawResponse.ok (analyzeRawCore logNone sqrtId (psOneFinite.filterMap finitePart)) ∧
      (analyzeRawCore logNone sqrtId (psOneFinite.filterMap finitePart)).latest_price
        = (psOneFinite.filterMap finitePart).getLastD 0 :=
  c10_raw_validation logNone sqrtId psOneFinite (by decide) (by decide)

/-- The RSI gain/loss accumulator keeps both components non-negative. -/
theorem gainLoss_aux_nonneg (ds : List ℚ) (g0 l0 : ℚ) (hg : 0 ≤ g0) (hl : 0 ≤ l0) :
    0 ≤ (ds.foldl gainLossStep (g0, l0)).1 ∧ 0 ≤ (ds.foldl gainLossStep (g0, l0)).2 := by
  induction ds generalizing g0 l0 with
  | nil => exact ⟨hg, hl⟩
  | cons d t ih =>
    simp only [List.foldl_cons, gainLossStep]
    by_cases hd : 0 ≤ d
    · rw [if_pos hd]
      exact ih _ _ (by linarith) hl
    · rw [if_neg hd]
      have hd2 : d < 0 := lt_of_not_le hd
      exact ih _ _ hg (by linarith)

/-- With only non-negative deltas the loss accumulator never moves. -/
theorem gainLoss_aux_loss_zero (ds : List ℚ) (g0 l0 : ℚ) (h : ∀ d ∈ ds, 0 ≤ d) :
    (ds.foldl gainLossStep (g0, l0)).2 = l0 := by
  induction ds generalizing g0 with
  | nil => rfl
  | cons d t ih =>
    simp only [List.foldl_cons, gainLossStep]
    rw [if_pos (h d (by simp))]
    exact ih _ (fun x hx => h x (by simp [hx]))

/-- Claim C4, counterexample: on the strictly increasing 15-point series
`0,1,…,14` every trailing delta is a non-negative gain and the loss sum is
zero, yet the epsilon-guarded RSI is `100 − 100/(1 + 14·10⁹)`, strictly less
than 100 — not exactly 100. -/
theorem c4_rsi_counterexample :
    (∀ d ∈ rsiDeltas rsiSeq 14, 0 ≤ d) ∧
      (gainLoss (rsiDeltas rsiSeq 14)).2 = 0 ∧
      RSI rsiSeq 14 ≠ some 100 := by
  have hgl : gainLoss (rsiDeltas rsiSeq 14) = (14, 0) := by
    norm_num [rsiSeq, rsiDeltas, deltas, gainLoss, gainLossStep]
  refine ⟨by norm_num [rsiSeq, rsiDeltas, deltas], by rw [hgl], ?_⟩
  unfold RSI
  rw [if_neg (by norm_num [rsiSeq])]
  dsimp only
  rw [hgl]
  dsimp only
  rw [max_eq_left (by norm_num : (0 : ℚ) ≤ 1 / 1000000000)]
  simp only [ne_eq, Option.some.injEq]
  norm_num

/-- Claim C4 (amended): for any series longer than the period the RSI is
defined and lies in `[0, 100]` — in fact always strictly below 100; when all
trailing deltas are non-negative gains with zero losses it equals
`100 − 100/(1 + g·10⁹)` (`g` the gain sum), approaching but never reaching
100 because of the epsilon guard on the loss sum. -/
theorem c4_rsi (arr : List ℚ) (period : Nat) (h : period < arr.length) :
    ∃ r, RSI arr period = some r ∧ 0 ≤ r ∧ r < 100 ∧
      ((∀ d ∈ rsiDeltas arr period, 0 ≤ d) →
        r = 100 - 100 / (1 + (gainLoss (rsiDeltas arr period)).1 * 1000000000)) := by
  unfold RSI
  rw [if_neg (by omega)]
  dsimp only
  refine ⟨_, rfl, ?_, ?_, ?_⟩
  all_goals
    have hgl := gainLoss_aux_nonneg (rsiDeltas arr period) 0 0 le_rfl le_rfl
  all_goals
    have hmax : (0 : ℚ) < max (1 / 1000000000) (gainLoss (rsiDeltas arr period)).2 :=
      lt_of_lt_of_le (by norm_num) (le_max_left _ _)
  all_goals
    have hRS : (0 : ℚ) ≤ (gainLoss (rsiDeltas arr period)).1
        / max (1 / 1000000000) (gainLoss (rsiDeltas arr period)).2 :=
      div_nonneg hgl.1 (le_of_lt hmax)
  · have hle : (100 : ℚ) / (1 + (gainLoss (rsiDeltas arr period)).1
        / max (1 / 1000000000) (gainLoss (rsiDeltas arr period)).2) ≤ 100 :=
      div_le_self (by norm_num) (by linarith)
    linarith
  · have hpos : (0 : ℚ) < 100 / (1 + (gainLoss (rsiDeltas arr period)).1
        / max (1 / 1000000000) (gainLoss (rsiDeltas arr period)).2) :=
      div_pos (by norm_num) (by linarith)
    linarith
  · intro hd
    have hz : (gainLoss (rsiDeltas arr period)).2 = 0 :=
      gainLoss_aux_loss_zero (rsiDeltas arr period) 0 0 hd
    rw [hz, max_eq_left (by norm_num : (0 : ℚ) ≤ 1 / 1000000000),
      div_div_eq_mul_div, div_one]

/-- Claim C4, witness: the strictly increasing 15-point series has a defined,
bounded RSI with the epsilon-guarded closed form. -/
theorem c4_rsi_witness :
    ∃ r, RSI rsiSeq 14 = some r ∧ 0 ≤ r ∧ r < 100 ∧
      ((∀ d ∈ rsiDeltas rsiSeq 14, 0 ≤ d) →
        r = 100 - 100 / (1 + (gainLoss (rsiDeltas rsiSeq 14)).1 * 1000000000)) :=
  c4_rsi rsiSeq 14 (by norm_num [rsiSeq])

/-- Indexed access below the length agrees with getElem. -/
theorem list_getD_of_lt (l : List ℚ) (i : Nat) (h : i < l.length) :
    l.getD i 0 = l[i] := by
  rw [List.getD_eq_getElem?_getD, List.getElem?_eq_getElem h, Option.getD_some]

/-- A list sum as a sum over its index range. -/
theorem list_sum_eq_range_sum (l : List ℚ) :
    l.sum = ∑ i in Finset.range l.length, l.getD i 0 := by
  induction l with
  | nil => simp
  | cons a t ih =>
    rw [List.sum_cons, List.length_cons, Finset.sum_range_succ', ih]
    simp only [List.getD_cons_succ, List.getD_cons_zero]
    exact add_comm _ _

/-- Sum of a mapped index range as a Finset sum. -/
theorem range_map_sum (m : Nat) (f : Nat → ℚ) :
    ((List.range m).map f).sum = ∑ i in Finset.range m, f i := by
  induction m with
  | zero => simp
  | succ n ih =>
    rw [List.range_succ, List.map_append, List.sum_append, Finset.sum_range_succ, ih]
    simp

/-- getD on a mapped index range evaluates the function. -/
theorem range_map_getD (m i : Nat) (f : Nat → ℚ) (h : i < m) :
    ((List.range m).map f).getD i 0 = f i := by
  have h2 : i < ((List.range m).map f).length := by simpa using h
  rw [list_getD_of_lt _ _ h2]
  simp

/-- Pairwise relations transfer to getD access at increasing indices. -/
theorem pairwise_getD (R : ℚ → ℚ → Prop) (l : List ℚ) (hp : l.Pairwise R) (i j : Nat)
    (hij : i < j) (hj : j < l.length) : R (l.getD i 0) (l.getD j 0) := by
  rw [list_getD_of_lt _ _ (by omega), list_getD_of_lt _ _ hj]
  exact List.pairwise_iff_getElem.mp hp i j (by omega) hj hij

/-- The centered cross-sum equals the pairwise double sum, up to the `2m`
factor. -/
theorem centered_sum_eq (m : Nat) (hm : 0 < m) (x f : Nat → ℚ) :
    2 * (m : ℚ) * (∑ i in Finset.range m,
        (x i - (∑ j in Finset.range m, x j) / m) * (f i - (∑ j in Finset.range m, f j) / m))
      = ∑ i in Finset.range m, ∑ j in Finset.range m, (x i - x j) * (f i - f j) := by
  have hm0 : (m : ℚ) ≠ 0 := Nat.cast_ne_zero.mpr hm.ne'
  have hR : ∀ i ∈ Finset.range m,
      (∑ j in Finset.range m, (x i - x j) * (f i - f j))
        = (m : ℚ) * (x i * f i) - x i * (∑ j in Finset.range m, f j)
            - (∑ j in Finset.range m, x j) * f i + ∑ j in Finset.range m, x j * f j := by
    intro i _
    have he2 : ∀ j ∈ Finset.range m, (x i - x j) * (f i - f j)
        = x i * f i - x i * f j - x j * f i + x j * f j := fun j _ => by ring
    rw [Finset.sum_congr rfl he2]
    rw [Finset.sum_add_distrib, Finset.sum_sub_distrib, Finset.sum_sub_distrib,
      Finset.sum_const, Finset.card_range, nsmul_eq_mul, ← Finset.mul_sum, ← Finset.sum_mul]
  have hL : ∀ i ∈ Finset.range m,
      (x i - (∑ j in Finset.range m, x j) / m) * (f i - (∑ j in Finset.range m, f j) / m)
        = x i * f i - x i * ((∑ j in Finset.range m, f j) / m)
            - ((∑ j in Finset.range m, x j) / m) * f i
            + ((∑ j in Finset.range m, x j) / m) * ((∑ j in Finset.range m, f j) / m) :=
    fun i _ => by ring
  rw [Finset.sum_congr rfl hL, Finset.sum_congr rfl hR]
  simp only [Finset.sum_add_distrib, Finset.sum_sub_distrib, Finset.sum_const,
    Finset.card_range, nsmul_eq_mul, ← Finset.mul_sum, ← Finset.sum_mul]
  field_simp
  ring

/-- The pairwise double sum is positive when both sequences strictly
co-increase. -/
theorem double_sum_pos (m : Nat) (hm : 2 ≤ m) (x f : Nat → ℚ)
    (hx : ∀ i j, i < j → j < m → x i < x j)
    (hf : ∀ i j, i < j → j < m → f i < f j) :
    0 < ∑ i in Finset.range m, ∑ j in Finset.range m, (x i - x j) * (f i - f j) := by
  have hterm : ∀ i j, i < m → j < m → 0 ≤ (x i - x j) * (f i - f j) := by
    intro i j hi hj
    rcases lt_trichotomy i j with h | h | h
    · exact le_of_lt (mul_pos_of_neg_of_neg (by linarith [hx i j h hj])
        (by linarith [hf i j h hj]))
    · subst h
      simp
    · exact le_of_lt (mul_pos (by linarith [hx j i h hi]) (by linarith [hf j i h hi]))
  apply Finset.sum_pos'
  · intro i hi
    exact Finset.sum_nonneg fun j hj =>
      hterm i j (Finset.mem_range.mp hi) (Finset.mem_range.mp hj)
  · refine ⟨0, Finset.mem_range.mpr (by omega), Finset.sum_pos' ?_ ?_⟩
    · intro j hj
      exact hterm 0 j (by omega) (Finset.mem_range.mp hj)
    · refine ⟨1, Finset.mem_range.mpr (by omega), ?_⟩
      exact mul_pos_of_neg_of_neg (by linarith [hx 0 1 one_pos (by omega)])
        (by linarith [hf 0 1 one_pos (by omega)])

/-- The centered cross-sum is positive when both sequences strictly
co-increase. -/
theorem centered_sum_pos (m : Nat) (hm : 2 ≤ m) (x f : Nat → ℚ)
    (hx : ∀ i j, i < j → j < m → x i < x j)
    (hf : ∀ i j, i < j → j < m → f i < f j) :
    0 < ∑ i in Finset.range m,
        (x i - (∑ j in Finset.range m, x j) / m) * (f i - (∑ j in Finset.range m, f j) / m) := by
  have hpos := double_sum_pos m hm x f hx hf
  have heq := centered_sum_eq m (by omega) x f
  have hm2 : (0 : ℚ) < 2 * (m : ℚ) := by
    have : (0 : ℚ) < (m : ℚ) := by exact_mod_cast (by omega : 0 < m)
    linarith
  nlinarith [heq, hpos, hm2]

/-- The normalized index axis is strictly increasing. -/
theorem xaxis_strictMono (m : Nat) (hm : 2 ≤ m) (i j : Nat) (hij : i < j) (_hj : j < m) :
    (i : ℚ) / ((m : ℚ) - 1) < (j : ℚ) / ((m : ℚ) - 1) := by
  have h1 : (2 : ℚ) ≤ (m : ℚ) := by exact_mod_cast hm
  have h2 : (i : ℚ) < (j : ℚ) := by exact_mod_cast hij
  exact (div_lt_div_iff_of_pos_right (by linarith)).mpr h2

/-- Claim C9: over the trailing 30-point window, the trend slope is strictly
positive for every strictly increasing series of at least two points, strictly
negative for every strictly decreasing series, and exactly zero for every
constant series. -/
theorem c9_trendslope (arr : List ℚ) :
    (2 ≤ arr.length → arr.Pairwise (· < ·) → 0 < trendSlope arr 30) ∧
      (2 ≤ arr.length → arr.Pairwise (· > ·) → trendSlope arr 30 < 0) ∧
      (∀ c, (∀ y ∈ arr, y = c) → trendSlope arr 30 = 0) := by
  refine ⟨?_, ?_, ?_⟩
  · intro hlen hp
    unfold trendSlope
    dsimp only
    set a := arr.drop (arr.length - 30) with ha
    have hm : 2 ≤ a.length := by
      rw [ha, List.length_drop]
      omega
    have hpa : a.Pairwise (· < ·) := List.Pairwise.sublist (List.drop_sublist _ _) hp
    have hxm : mean ((List.range a.length).map fun (i : ℕ) => (i : ℚ) / ((a.length : ℚ) - 1))
        = (∑ j in Finset.range a.length, (j : ℚ) / ((a.length : ℚ) - 1)) / (a.length : ℚ) := by
      unfold mean
      rw [range_map_sum]
      simp
    have ham : mean a = (∑ j in Finset.range a.length, a.getD j 0) / (a.length : ℚ) := by
      unfold mean
      rw [list_sum_eq_range_sum]
    have hden : 0 < ∑ i in Finset.range a.length,
        (((List.range a.length).map fun (i : ℕ) => (i : ℚ) / ((a.length : ℚ) - 1)).getD i 0
          - mean ((List.range a.length).map fun (i : ℕ) => (i : ℚ) / ((a.length : ℚ) - 1))) ^ 2 := by
      refine lt_of_lt_of_eq (centered_sum_pos a.length hm
        (fun (i : ℕ) => (i : ℚ) / ((a.length : ℚ) - 1)) (fun (i : ℕ) => (i : ℚ) / ((a.length : ℚ) - 1))
        (fun i j hij hj => xaxis_strictMono a.length hm i j hij hj)
        (fun i j hij hj => xaxis_strictMono a.length hm i j hij hj))
        (Eq.symm (Finset.sum_congr rfl fun i hi => ?_))
      rw [range_map_getD _ _ _ (Finset.mem_range.mp hi), hxm, pow_two]
    rw [if_neg (by omega), if_neg (ne_of_gt hden)]
    refine div_pos (div_pos ?_ hden) (lt_max_of_lt_left (by norm_num))
    refine lt_of_lt_of_eq (centered_sum_pos a.length hm
      (fun (i : ℕ) => (i : ℚ) / ((a.length : ℚ) - 1)) (fun i => a.getD i 0)
      (fun i j hij hj => xaxis_strictMono a.length hm i j hij hj)
      (fun i j hij hj => pairwise_getD _ a hpa i j hij hj))
      (Eq.symm (Finset.sum_congr rfl fun i hi => ?_))
    rw [range_map_getD _ _ _ (Finset.mem_range.mp hi), hxm, ham]
  · intro hlen hp
    unfold trendSlope
    dsimp only
    set a := arr.drop (arr.length - 30) with ha
    have hm : 2 ≤ a.length := by
      rw [ha, List.length_drop]
      omega
    have hpa : a.Pairwise (· > ·) := List.Pairwise.sublist (List.drop_sublist _ _) hp
    have hxm : mean ((List.range a.length).map fun (i : ℕ) => (i : ℚ) / ((a.length : ℚ) - 1))
        = (∑ j in Finset.range a.length, (j : ℚ) / ((a.length : ℚ) - 1)) / (a.length : ℚ) := by
      unfold mean
      rw [range_map_sum]
      simp
    have ham : mean a = (∑ j in Finset.range a.length, a.getD j 0) / (a.length : ℚ) := by
      unfold mean
      rw [list_sum_eq_range_sum]
    have hden : 0 < ∑ i in Finset.range a.length,
        (((List.range a.length).map fun (i : ℕ) => (i : ℚ) / ((a.length : ℚ) - 1)).getD i 0
          - mean ((List.range a.length).map fun (i : ℕ) => (i : ℚ) / ((a.length : ℚ) - 1))) ^ 2 := by
      refine lt_of_lt_of_eq (centered_sum_pos a.length hm
        (fun (i : ℕ) => (i : ℚ) / ((a.length : ℚ) - 1)) (fun (i : ℕ) => (i : ℚ) / ((a.length : ℚ) - 1))
        (fun i j hij hj => xaxis_strictMono a.length hm i j hij hj)
        (fun i j hij hj => xaxis_strictMono a.length hm i j hij hj))
        (Eq.symm (Finset.sum_congr rfl fun i hi => ?_))
      rw [range_map_getD _ _ _ (Finset.mem_range.mp hi), hxm, pow_two]
    have hnum : (∑ i in Finset.range a.length,
        (((List.range a.length).map fun (i : ℕ) => (i : ℚ) / ((a.length : ℚ) - 1)).getD i 0
          - mean ((List.range a.length).map fun (i : ℕ) => (i : ℚ) / ((a.length : ℚ) - 1)))
          * (a.getD i 0 - mean a)) < 0 := by
      have hcore : 0 < -∑ i in Finset.range a.length,
          (((List.range a.length).map fun (i : ℕ) => (i : ℚ) / ((a.length : ℚ) - 1)).getD i 0
            - mean ((List.range a.length).map fun (i : ℕ) => (i : ℚ) / ((a.length : ℚ) - 1)))
            * (a.getD i 0 - mean a) := by
        refine lt_of_lt_of_eq (centered_sum_pos a.length hm
          (fun (i : ℕ) => (i : ℚ) / ((a.length : ℚ) - 1)) (fun i => -(a.getD i 0))
          (fun i j hij hj => xaxis_strictMono a.length hm i j hij hj)
          (fun i j hij hj => by
            have := pairwise_getD (· > ·) a hpa i j hij hj
            simpa using this)) ?_
        rw [← Finset.sum_neg_distrib]
        refine Finset.sum_congr rfl fun i hi => ?_
        rw [range_map_getD _ _ _ (Finset.mem_range.mp hi), hxm, ham,
          Finset.sum_neg_distrib]
        ring
      linarith
    rw [if_neg (by omega), if_neg (ne_of_gt hden)]
    exact div_neg_of_neg_of_pos (div_neg_of_neg_of_pos hnum hden)
      (lt_max_of_lt_left (by norm_num))
  · intro c hc
    unfold trendSlope
    dsimp only
    set a := arr.drop (arr.length - 30) with ha
    have hca : ∀ y ∈ a, y = c := fun y hy => hc y (List.mem_of_mem_drop (ha ▸ hy))
    by_cases hm2 : a.length < 2
    · rw [if_pos hm2]
    · rw [if_neg hm2]
      have hlen0 : (a.length : ℚ) ≠ 0 := Nat.cast_ne_zero.mpr (by omega)
      have hmean : mean a = c := by
        unfold mean
        rw [List.sum_eq_card_nsmul a c hca, nsmul_eq_mul, mul_div_cancel_left₀ _ hlen0]
      have hnum0 : (∑ i in Finset.range a.length,
          (((List.range a.length).map fun (i : ℕ) => (i : ℚ) / ((a.length : ℚ) - 1)).getD i 0
            - mean ((List.range a.length).map fun (i : ℕ) => (i : ℚ) / ((a.length : ℚ) - 1)))
            * (a.getD i 0 - mean a)) = 0 := by
        refine Finset.sum_eq_zero fun i hi => ?_
        have h1 : a.getD i 0 = c := by
          rw [list_getD_of_lt a i (Finset.mem_range.mp hi)]
          exact hca _ (List.getElem_mem (Finset.mem_range.mp hi))
        rw [h1, hmean, sub_self, mul_zero]
      rw [hnum0]
      split_ifs <;> simp

/-- Claim C9, witness: the strictly increasing three-point series has a
strictly positive trend slope. -/
theorem c9_trendslope_witness : 0 < trendSlope [(0 : ℚ), 1, 2] 30 :=
  (c9_trendslope [(0 : ℚ), 1, 2]).1 (by norm_num) (by norm_num [List.pairwise_cons])
